import Mathlib

/-!
Verification of the pubtator-loader ingestion pipeline.

The definitions below are a shallow embedding of the TypeScript sources
`src/databaseLoader.ts` (skip-if-exists loader) and the batch loader file
(replace loader, `processValidDocuments` / `processDocumentOnly`).
Source trees handed over by the XML parser are loosely typed: every
optional field is an `Option`, every "one or many" field is an
`OneOrMany`, and JavaScript runtime failures (property access on
`undefined`, store unique violations) are an explicit error type.
-/

/-- Runtime failures of the loader: a JavaScript `TypeError` (property
access or method call on `undefined`), or a store-level unique-constraint
violation. -/
inductive JsError where
  | typeError
  | uniqueViolation
deriving DecidableEq, Repr

deriving instance DecidableEq for Except

/-- Computable test for the error side of `Except`. -/
def exceptIsError : Except JsError α → Bool
  | .error _ => true
  | .ok _ => false

/-- A field of the parsed tree that the source reads as "one or many":
it may be absent (`undefined`/`null`), a bare single element, or a list. -/
inductive OneOrMany (α : Type) where
  | absent
  | one (x : α)
  | many (l : List α)
deriving DecidableEq, Repr

/-- `ensureArray` from both loaders: `undefined`/`null` become `[]`,
an array is returned as is, anything else is wrapped in a one-element
array. -/
def ensureArray : OneOrMany α → List α
  | .absent => []
  | .one x => [x]
  | .many l => l

/-- An `infon` node as the loaders read it: `infon.attributes.key` and
`infon._text`, either of which may be missing. -/
structure InfonData where
  key : Option String
  text : Option String
deriving DecidableEq, Repr

/-- A `location` node: `attributes.offset` and `attributes.length`. -/
structure LocationData where
  offset : Option Int
  length : Option Int
deriving DecidableEq, Repr

/-- An `annotation` node: `attributes.id`, nested infons, locations and
text.  The `location` field is read by the source as `location?.[0]`,
never through `ensureArray`. -/
structure AnnotationData where
  id : Option String
  infon : OneOrMany InfonData
  location : OneOrMany LocationData
  text : Option String
deriving DecidableEq, Repr

/-- A `passage` node. -/
structure PassageData where
  infon : OneOrMany InfonData
  offset : Option Int
  text : Option String
  annotation : OneOrMany AnnotationData
deriving DecidableEq, Repr

/-- A `document` node: natural id plus passages. -/
structure DocumentData where
  id : Option String
  passage : OneOrMany PassageData
deriving DecidableEq, Repr

/-- The `collectionData` object both loaders build per file:
`{ source: collection.source || null, date: collection.date || null,
key: fileName }`. -/
structure CollectionInput where
  source : Option String
  date : Option String
  key : String
deriving DecidableEq, Repr

/-- The `{key, value}` record produced for every infon:
`key: infon.attributes.key || ''`, `value: infon._text || ''`. -/
structure InfonRecord where
  key : String
  value : String
deriving DecidableEq, Repr

/-- Mapping of one infon node to its record (the `.map` body used for
passage and annotation infons alike). -/
def normInfon (i : InfonData) : InfonRecord :=
  { key := i.key.getD "", value := i.text.getD "" }

/-- The passage derivation loop: iterate the infon records and on
`section_type` overwrite the first component, on `type` the second
(`processPassagesWithoutProgress`, extraction of `sectionType`/`type`). -/
def extractPassageFields (infons : List InfonRecord) : Option String × Option String :=
  infons.foldl
    (fun st i =>
      if i.key = "section_type" then (some i.value, st.2)
      else if i.key = "type" then (st.1, some i.value)
      else st)
    (none, none)

/-- The annotation derivation loop: `identifier` and `type` keys,
unconditional overwrite on each match. -/
def extractAnnotationFields (infons : List InfonRecord) : Option String × Option String :=
  infons.foldl
    (fun st i =>
      if i.key = "identifier" then (some i.value, st.2)
      else if i.key = "type" then (st.1, some i.value)
      else st)
    (none, none)

/-- The expression `annotation.location?.[0].attributes.offset || 0`.
The optional chain only short-circuits when `location` itself is
`undefined`/`null`; when `location` is a bare object or an empty array,
`location[0]` is `undefined` and reading `.attributes` throws. -/
def annLocOffset (loc : OneOrMany LocationData) : Except JsError Int :=
  match loc with
  | .absent => .ok 0
  | .one _ => .error .typeError
  | .many [] => .error .typeError
  | .many (l :: _) => .ok (l.offset.getD 0)

/-- The expression `annotation.location?.[0].attributes.length || 0`. -/
def annLocLength (loc : OneOrMany LocationData) : Except JsError Int :=
  match loc with
  | .absent => .ok 0
  | .one _ => .error .typeError
  | .many [] => .error .typeError
  | .many (l :: _) => .ok (l.length.getD 0)

/-- The record built for one annotation inside the `annotations` map of
`processPassagesWithoutProgress`. -/
structure AnnRecord where
  annotationId : String
  identifier : Option String
  type : Option String
  offset : Int
  length : Int
  text : String
deriving DecidableEq, Repr

/-- Normalization of a single annotation (the body of the `annotations`
map).  Note `identifier: identifier?.toString() || null`: an extracted
empty string collapses to `null`, while `type` is stored as extracted. -/
def normAnnotation (a : AnnotationData) : Except JsError AnnRecord :=
  let infons := (ensureArray a.infon).map normInfon
  let fields := extractAnnotationFields infons
  match annLocOffset a.location, annLocLength a.location with
  | .ok offset, .ok length =>
      .ok { annotationId := a.id.getD ""
            identifier :=
              match fields.1 with
              | none => none
              | some v => if v = "" then none else some v
            type := fields.2
            offset := offset
            length := length
            text := a.text.getD "" }
  | .error e, _ => .error e
  | .ok _, .error e => .error e

/-- A JavaScript `Array.prototype.map` whose body may throw: elements are
mapped left to right and the first exception propagates, discarding all
results. -/
def mapExcept (f : α → Except JsError β) : List α → Except JsError (List β)
  | [] => .ok []
  | x :: xs =>
    match f x with
    | .error e => .error e
    | .ok y =>
      match mapExcept f xs with
      | .error e => .error e
      | .ok ys => .ok (y :: ys)

/-- The `data` object passed to `prisma.passage.create`: the foreign key
`documentId` (the generated id of the owning document row), scalar
columns, and the nested `createMany` payloads for infons and
annotations.  An empty nested list and an omitted `createMany` payload
both create no child rows, so they are identified. -/
structure NormPassage where
  documentId : Nat
  offset : Int
  text : String
  sectionType : Option String
  type : Option String
  infons : List InfonRecord
  annotations : List AnnRecord
deriving DecidableEq, Repr

/-- Normalization of one passage (the body of the `passageDataArray`
map in `processPassagesWithoutProgress`). -/
def normalizePassage (p : PassageData) (documentRowId : Nat) : Except JsError NormPassage :=
  let passageInfons := (ensureArray p.infon).map normInfon
  let fields := extractPassageFields passageInfons
  match mapExcept normAnnotation (ensureArray p.annotation) with
  | .error e => .error e
  | .ok annotations =>
      .ok { documentId := documentRowId
            offset := p.offset.getD 0
            text := p.text.getD ""
            sectionType := fields.1
            type := fields.2
            infons := passageInfons
            annotations := annotations }

/-- The annotation filter `shouldProcessDocument`: with no required
annotations every document passes; otherwise scan every passage's every
annotation's infons for a `type` or `identifier` entry whose (defaulted)
text is in the required list. -/
def shouldProcessDocument (requiredAnnotations : List String) (doc : DocumentData) : Bool :=
  if requiredAnnotations.isEmpty then true
  else
    (ensureArray doc.passage).any fun passage =>
      (ensureArray passage.annotation).any fun annotation =>
        (ensureArray annotation.infon).any fun infon =>
          (infon.key = some "type" || infon.key = some "identifier")
            && requiredAnnotations.contains (infon.text.getD "")

/-- A Collection row.  Generated row ids are modelled as naturals drawn
from a per-store counter. -/
structure CollectionRow where
  id : Nat
  source : Option String
  date : Option String
  key : String
deriving DecidableEq, Repr

/-- A Document row: generated id, natural key `documentId`, owning
collection. -/
structure DocumentRow where
  id : Nat
  documentId : String
  collectionId : Nat
deriving DecidableEq, Repr

/-- Modelled from the spec: the relational store behind the Prisma
client.  The Prisma schema is not part of the sources, so the store
semantics follow the spec's data model: `Collection.key` and
`Document.documentId` are unique, passage rows carry their nested infon
and annotation child rows (they are created in the same
`passage.create` call and cascade-delete with the passage), and deleting
a document cascades to its passages.  `nextId` is the generator for row
ids; passage rows are never referenced by id, so no id is recorded for
them. -/
structure Store where
  nextId : Nat
  collections : List CollectionRow
  documents : List DocumentRow
  passages : List NormPassage
deriving DecidableEq, Repr

/-- `prisma.collection.findFirst({ where: { key } })`. -/
def findCollectionByKey (key : String) (s : Store) : Option CollectionRow :=
  s.collections.find? (fun c => c.key = key)

/-- Modelled from the spec: `prisma.collection.create` under the
schema's unique constraint on `key` — the insert fails when a row with
the key already exists, otherwise appends a fresh row. -/
def createCollection (cd : CollectionInput) (s : Store) : Except JsError (CollectionRow × Store) :=
  if s.collections.any (fun c => c.key = cd.key) then .error .uniqueViolation
  else
    let row : CollectionRow := { id := s.nextId, source := cd.source, date := cd.date, key := cd.key }
    .ok (row, { s with nextId := s.nextId + 1, collections := s.collections ++ [row] })

/-- The "create or get collection" block shared by both loaders:
`findFirst` by key, create when absent. -/
def getOrCreateCollection (cd : CollectionInput) (s : Store) : Except JsError (CollectionRow × Store) :=
  match findCollectionByKey cd.key s with
  | some c => .ok (c, s)
  | none => createCollection cd s

/-- `prisma.document.findFirst({ where: { documentId } })`. -/
def findDocumentByDocumentId (docId : String) (s : Store) : Option DocumentRow :=
  s.documents.find? (fun d => d.documentId = docId)

/-- Modelled from the spec: `prisma.document.delete({ where: { documentId } })`
with the schema's cascade — the document row goes away together with
every passage row (and hence nested infon/annotation row) owned by it.
Both call sites guard the call with a successful `findFirst`. -/
def deleteDocumentCascading (docId : String) (s : Store) : Store :=
  match s.documents.find? (fun d => d.documentId = docId) with
  | none => s
  | some row =>
      { s with
        documents := s.documents.filter (fun d => d.documentId ≠ docId)
        passages := s.passages.filter (fun p => p.documentId ≠ row.id) }

/-- Modelled from the spec: `prisma.document.create` under the schema's
unique constraint on `documentId`. -/
def createDocument (docId : String) (collectionId : Nat) (s : Store) :
    Except JsError (DocumentRow × Store) :=
  if s.documents.any (fun d => d.documentId = docId) then .error .uniqueViolation
  else
    let row : DocumentRow := { id := s.nextId, documentId := docId, collectionId := collectionId }
    .ok (row, { s with nextId := s.nextId + 1, documents := s.documents ++ [row] })

/-- `processPassagesWithoutProgress` (identical in both loaders): first
the `.map` normalizes every passage — the first failure propagates
before anything is written — then each prepared `data` object is passed
to `prisma.passage.create` in order. -/
def processPassagesWithoutProgress (passages : List PassageData) (documentRowId : Nat)
    (s : Store) : Except JsError Store :=
  match mapExcept (fun p => normalizePassage p documentRowId) passages with
  | .error e => .error e
  | .ok rows => .ok { s with passages := s.passages ++ rows }

/-- `processDocumentOnly` of the batch (replace-policy) loader:
`doc.id!.toString()` (throws when absent), resolve or create the
collection, delete any existing document with the natural key
(cascading), create the fresh document row, then write its passages. -/
def processDocumentOnly (doc : DocumentData) (collectionData : CollectionInput) (s : Store) :
    Except JsError Store :=
  match doc.id with
  | none => .error .typeError
  | some docId =>
    match getOrCreateCollection collectionData s with
    | .error e => .error e
    | .ok (dbCollection, s1) =>
      let s2 :=
        match findDocumentByDocumentId docId s1 with
        | some _ => deleteDocumentCascading docId s1
        | none => s1
      match createDocument docId dbCollection.id s2 with
      | .error e => .error e
      | .ok (dbDocument, s3) =>
        let passages := ensureArray doc.passage
        if passages.isEmpty then .ok s3
        else processPassagesWithoutProgress passages dbDocument.id s3

/-- `insertDocumentIfNotExists` of the skip-policy loader: extract the
natural key, return `false` untouched when a document with it exists,
otherwise resolve or create the collection, create the document and its
passages and return `true`. -/
def insertDocumentIfNotExists (doc : DocumentData) (collectionData : CollectionInput) (s : Store) :
    Except JsError (Bool × Store) :=
  match doc.id with
  | none => .error .typeError
  | some docId =>
    if (findDocumentByDocumentId docId s).isSome then .ok (false, s)
    else
      match getOrCreateCollection collectionData s with
      | .error e => .error e
      | .ok (dbCollection, s1) =>
        match createDocument docId dbCollection.id s1 with
        | .error e => .error e
        | .ok (dbDocument, s2) =>
          let passages := ensureArray doc.passage
          if passages.isEmpty then .ok (true, s2)
          else
            match processPassagesWithoutProgress passages dbDocument.id s2 with
            | .error e => .error e
            | .ok s3 => .ok (true, s3)

/-- Store well-formedness maintained by the pipeline: natural document
keys are pairwise distinct, and all generated ids referenced anywhere
are below the id counter. -/
def WF (s : Store) : Prop :=
  (s.documents.map (fun d => d.documentId)).Nodup
  ∧ (∀ d ∈ s.documents, d.id < s.nextId)
  ∧ (∀ p ∈ s.passages, p.documentId < s.nextId)

instance : DecidablePred WF := fun s => by
  unfold WF
  infer_instance

/-- The entry found last among the infon records carrying a given key:
the first match when scanning the reversed list.  The derivation loops
overwrite on every match, so this is the value they leave behind. -/
def lastRecognized (k : String) (infons : List InfonRecord) : Option InfonRecord :=
  infons.reverse.find? (fun i => i.key = k)

/-- Overwrite semantics of the derivation loops, lifted to options. -/
def overrideWith (new old : Option String) : Option String :=
  match new with
  | some v => some v
  | none => old

/-- Location shapes on which `location?.[0].attributes` does not throw:
an absent field (the optional chain short-circuits) or a list with at
least one element. -/
def locationWellFormed : OneOrMany LocationData → Bool
  | .absent => true
  | .many (_ :: _) => true
  | .one _ => false
  | .many [] => false

/-- The chunking loop of `processValidDocuments`:
`for (let i = 0; i < n; i += batchSize) batches.push(slice(i, i + batchSize))`.
The structural fuel equals the number of remaining elements; it is never
exhausted when `batchSize ≥ 1`. -/
def chunkFuel (batchSize : Nat) : Nat → List α → List (List α)
  | _, [] => []
  | 0, _ :: _ => []
  | fuel + 1, x :: xs =>
      ((x :: xs).take batchSize) :: chunkFuel batchSize fuel ((x :: xs).drop batchSize)

/-- Batch construction of `processValidDocuments`:
`batchSize = Math.ceil(n / concurrency)` followed by the slicing loop. -/
def chunkBatches (concurrency : Nat) (docs : List α) : List (List α) :=
  chunkFuel ((docs.length + concurrency - 1) / concurrency) docs.length docs

/-- `const CONCURRENCY = 10` in `processValidDocuments`. -/
def CONCURRENCY : Nat := 10

/-- The batches actually built by the batch loader. -/
def makeBatches (docs : List α) : List (List α) := chunkBatches CONCURRENCY docs

/-- The per-document work item collected in phase 1 of the batch loader
(`DocumentInfo` in the source). -/
structure DocumentInfo where
  document : DocumentData
  fileName : String
  documentIndex : Nat
  collectionData : CollectionInput
deriving DecidableEq, Repr

/-- Whether the passage normalization inside an upsert of this document
throws.  The thrown error does not depend on the generated document row
id, so it is probed at row id `0`. -/
def normalizeDocFails (doc : DocumentData) : Bool :=
  exceptIsError (mapExcept (fun p => normalizePassage p 0) (ensureArray doc.passage))

/-- Whether `processDocumentOnly` raises for this document, independent
of the store: either `doc.id!` throws or passage normalization throws. -/
def upsertFails (doc : DocumentData) : Bool :=
  doc.id.isNone || normalizeDocFails doc

/-- Documents attempted by one slice of `processValidDocuments`: the
`for` loop awaits `processDocumentOnly` for each document in order and
has no try/catch, so a thrown error ends the slice after the failing
document. -/
def sliceAttempts : List DocumentInfo → List DocumentInfo
  | [] => []
  | d :: rest => if upsertFails d.document then [d] else d :: sliceAttempts rest

/-- Outcome of phase 2: which documents each parallel slice attempted,
and whether the awaited `Promise.all` rejected.  Each of the `async`
slice drivers runs its own loop to completion or failure; one slice's
rejection does not stop another slice's loop. -/
structure BatchRunOutcome where
  attempted : List DocumentInfo
  rejected : Bool
deriving DecidableEq, Repr

/-- Control-flow model of `processValidDocuments`: partition into
batches, drive each batch in order until its first failure, reject the
whole call iff some batch failed. -/
def processValidDocumentsModel (validDocuments : List DocumentInfo) : BatchRunOutcome :=
  let batches := makeBatches validDocuments
  { attempted := (batches.map sliceAttempts).flatten
    rejected := batches.any fun b => b.any fun d => upsertFails d.document }

/-- Progress of one worker through the "create or get collection" block:
about to run `findFirst`, about to act on the recorded lookup result,
finished, or aborted by a thrown store error. -/
inductive WorkerPhase where
  | toFind
  | toCreate (found : Bool)
  | done
  | failed
deriving DecidableEq, Repr

/-- Shared store plus the local phase of every concurrent worker. -/
structure RaceState where
  workers : List WorkerPhase
  store : Store
deriving DecidableEq, Repr

/-- One scheduling step: worker `i` executes its next store operation.
`findFirst` and `create` are the atomic units; between them any other
worker may run.  A unique-constraint violation thrown by `create` aborts
the worker (the loader does not catch it) and writes nothing. -/
def raceStep (cd : CollectionInput) (st : RaceState) (i : Nat) : RaceState :=
  match st.workers.get? i with
  | none => st
  | some .toFind =>
      { st with workers := st.workers.set i (.toCreate (findCollectionByKey cd.key st.store).isSome) }
  | some (.toCreate true) => { st with workers := st.workers.set i .done }
  | some (.toCreate false) =>
      match createCollection cd st.store with
      | .ok (_, s') => { workers := st.workers.set i .done, store := s' }
      | .error _ => { st with workers := st.workers.set i .failed }
  | some .done => st
  | some .failed => st

/-- Run an arbitrary interleaving of worker steps. -/
def raceRun (cd : CollectionInput) (st : RaceState) (sched : List Nat) : RaceState :=
  sched.foldl (raceStep cd) st

/-- Number of Collection rows bearing a key. -/
def countKey (key : String) (s : Store) : Nat :=
  (s.collections.filter (fun c => c.key = key)).length

/-- The empty store. -/
def emptyStore : Store := { nextId := 0, collections := [], documents := [], passages := [] }

/-- Example collection input, as built for a file named `10.BioC.XML`. -/
def exCollectionInput : CollectionInput :=
  { source := none, date := none, key := "10.BioC.XML" }

/-- Example passage used by witnesses. -/
def exPassageNew : PassageData :=
  { infon := .many [{ key := some "type", text := some "front" }]
    offset := some 5
    text := some "new text"
    annotation := .absent }

/-- Example re-ingested document with natural key `1`. -/
def exDocNew : DocumentData := { id := some "1", passage := .one exPassageNew }

/-- Example store already holding document `1` with one old passage. -/
def exStoreExisting : Store :=
  { nextId := 2
    collections := [{ id := 0, source := none, date := none, key := "10.BioC.XML" }]
    documents := [{ id := 1, documentId := "1", collectionId := 0 }]
    passages := [{ documentId := 1, offset := 0, text := "old", sectionType := none,
                   type := none, infons := [], annotations := [] }] }

/-- Shorthand for a work item over a document. -/
def simpleInfo (d : DocumentData) (idx : Nat) : DocumentInfo :=
  { document := d, fileName := "f.xml", documentIndex := idx, collectionData := exCollectionInput }

/-- Eleven work items whose first document lacks its natural id (its
upsert throws); the remaining ten are well-formed. -/
def elevenDocs : List DocumentInfo :=
  simpleInfo { id := none, passage := .absent } 0 ::
    (List.range 10).map (fun n => simpleInfo { id := some (toString (n + 1)), passage := .absent } (n + 1))

/-- A passage whose infons carry both recognized keys (C6 witness data). -/
def exPassageSec : PassageData :=
  { infon := .many [{ key := some "section_type", text := some "title" },
                    { key := some "type", text := some "front" }]
    offset := none
    text := none
    annotation := .absent }

/-- The normalized record of `exPassageSec` at row id 0. -/
def exNormSec : NormPassage :=
  { documentId := 0, offset := 0, text := "", sectionType := some "title", type := some "front",
    infons := [{ key := "section_type", value := "title" }, { key := "type", value := "front" }],
    annotations := [] }

/-- An annotation whose last (only) `identifier` infon has empty text. -/
def exAnnIdentifierEmpty : AnnotationData :=
  { id := some "a1", infon := .many [{ key := some "identifier", text := some "" }],
    location := .absent, text := some "t" }

/-- An annotation with a present-but-empty location list. -/
def exAnnEmptyLoc : AnnotationData :=
  { id := some "x", infon := .absent, location := .many [], text := none }

/-- An annotation with no location, no text and no infons. -/
def exAnnNoLoc : AnnotationData :=
  { id := some "a9", infon := .absent, location := .absent, text := none }

/-- A passage with every optional field absent, owning `exAnnNoLoc`. -/
def exPassageBare : PassageData :=
  { infon := .absent, offset := none, text := none, annotation := .one exAnnNoLoc }

/-- An annotation with no id and a well-formed location. -/
def exAnnNoId : AnnotationData :=
  { id := none, infon := .absent, location := .many [{ offset := none, length := none }],
    text := some "m" }

/-- An annotation with no id and a present-but-empty location list. -/
def exAnnNoIdBadLoc : AnnotationData :=
  { id := none, infon := .absent, location := .many [], text := some "z" }

/-- A document with no natural id. -/
def exDocNoId : DocumentData := { id := none, passage := .absent }

/-- A document whose only passage owns an annotation with an empty
location list, so its normalization throws. -/
def exBadLocDoc : DocumentData :=
  { id := some "7", passage := .one { infon := .absent, offset := none, text := none,
                                      annotation := .one exAnnEmptyLoc } }

/-- The store left by replacing document `1` of `exStoreExisting` with
`exDocNew`. -/
def exStoreReplaced : Store :=
  { nextId := 3
    collections := [{ id := 0, source := none, date := none, key := "10.BioC.XML" }]
    documents := [{ id := 2, documentId := "1", collectionId := 0 }]
    passages := [{ documentId := 2, offset := 5, text := "new text", sectionType := none,
                   type := some "front", infons := [{ key := "type", value := "front" }],
                   annotations := [] }] }

/-- Three well-formed work items. -/
def goodDocsThree : List DocumentInfo :=
  (List.range 3).map (fun n => simpleInfo { id := some (toString n), passage := .absent } n)

/-- Invariant of the collection race: never more than one Collection row
with the key, and once any worker has seen the key or finished, a row
with the key exists. -/
def RaceInv (key : String) (st : RaceState) : Prop :=
  countKey key st.store ≤ 1
  ∧ ∀ w ∈ st.workers, (w = .toCreate true ∨ w = .done ∨ w = .failed) →
      1 ≤ countKey key st.store

/-! ## Helper lemmas -/

lemma overrideWith_none (new : Option String) : overrideWith new none = new := by
  cases new <;> rfl

lemma extractFields_foldl (k1 : String) (hk : ¬ k1 = "type") (l : List InfonRecord)
    (acc : Option String × Option String) :
    l.foldl
      (fun st i =>
        if i.key = k1 then (some i.value, st.2)
        else if i.key = "type" then (st.1, some i.value)
        else st) acc =
    (overrideWith ((lastRecognized k1 l).map (fun i => i.value)) acc.1,
     overrideWith ((lastRecognized "type" l).map (fun i => i.value)) acc.2) := by
  induction l using List.reverseRecOn generalizing acc with
  | nil => simp [lastRecognized, overrideWith]
  | append_singleton l i ih =>
      rw [List.foldl_append, ih]
      simp only [List.foldl_cons, List.foldl_nil]
      unfold lastRecognized
      rw [List.reverse_append]
      simp only [List.reverse_cons, List.reverse_nil, List.nil_append, List.cons_append,
        List.find?_cons]
      have hk2 : ¬ "type" = k1 := fun h => hk h.symm
      by_cases h1 : i.key = k1
      · have h2 : ¬ i.key = "type" := by rw [h1]; exact hk
        simp [h1, h2, hk, overrideWith]
      · by_cases h2 : i.key = "type"
        · simp [h1, h2, hk2, overrideWith]
        · simp [h1, h2, overrideWith]

lemma extractPassageFields_eq (l : List InfonRecord) :
    extractPassageFields l =
      ((lastRecognized "section_type" l).map (fun i => i.value),
       (lastRecognized "type" l).map (fun i => i.value)) := by
  unfold extractPassageFields
  rw [extractFields_foldl "section_type" (by decide)]
  simp [overrideWith_none]

lemma extractAnnotationFields_eq (l : List InfonRecord) :
    extractAnnotationFields l =
      ((lastRecognized "identifier" l).map (fun i => i.value),
       (lastRecognized "type" l).map (fun i => i.value)) := by
  unfold extractAnnotationFields
  rw [extractFields_foldl "identifier" (by decide)]
  simp [overrideWith_none]

lemma mapExcept_ok_of_forall (f : α → Except JsError β) (l : List α)
    (h : ∀ x ∈ l, ∃ y, f x = .ok y) : ∃ ys, mapExcept f l = .ok ys := by
  induction l with
  | nil => exact ⟨[], rfl⟩
  | cons x xs ih =>
      obtain ⟨y, hy⟩ := h x (List.mem_cons_self x xs)
      obtain ⟨ys, hys⟩ := ih (fun z hz => h z (List.mem_cons_of_mem x hz))
      exact ⟨y :: ys, by simp [mapExcept, hy, hys]⟩

lemma mapExcept_mem (f : α → Except JsError β) (l : List α) (ys : List β)
    (h : mapExcept f l = .ok ys) : ∀ y ∈ ys, ∃ x ∈ l, f x = .ok y := by
  induction l generalizing ys with
  | nil =>
      simp only [mapExcept] at h
      cases h
      simp
  | cons x xs ih =>
      simp only [mapExcept] at h
      cases hx : f x with
      | error e => rw [hx] at h; cases h
      | ok y0 =>
          rw [hx] at h
          cases hxs : mapExcept f xs with
          | error e => rw [hxs] at h; cases h
          | ok ys0 =>
              rw [hxs] at h
              cases h
              intro y hy
              rcases List.mem_cons.mp hy with hy | hy
              · exact ⟨x, List.mem_cons_self x xs, hy ▸ hx⟩
              · obtain ⟨z, hz, hfz⟩ := ih ys0 hxs y hy
                exact ⟨z, List.mem_cons_of_mem x hz, hfz⟩

lemma mapExcept_map (f : α → Except JsError β) (g : β → γ) (l : List α) :
    mapExcept (fun x => (f x).map g) l = (mapExcept f l).map (fun ys => ys.map g) := by
  induction l with
  | nil => rfl
  | cons x xs ih =>
      simp only [mapExcept, ih]
      cases f x <;> cases hxs : mapExcept f xs <;> simp [Except.map]

lemma exceptIsError_map (f : β → γ) (x : Except JsError β) :
    exceptIsError (x.map f) = exceptIsError x := by
  cases x <;> rfl

lemma normalizePassage_shift (p : PassageData) (rid : Nat) :
    normalizePassage p rid
      = (normalizePassage p 0).map (fun q => { q with documentId := rid }) := by
  unfold normalizePassage
  cases mapExcept normAnnotation (ensureArray p.annotation) <;> rfl

lemma normalizePassage_documentId (p : PassageData) (rid : Nat) (q : NormPassage)
    (h : normalizePassage p rid = .ok q) : q.documentId = rid := by
  unfold normalizePassage at h
  cases hm : mapExcept normAnnotation (ensureArray p.annotation) with
  | error e => rw [hm] at h; cases h
  | ok anns => rw [hm] at h; cases h; rfl

lemma normAnnotation_eq_of_absent (a : AnnotationData) (h : a.location = .absent) :
    normAnnotation a =
      .ok { annotationId := a.id.getD ""
            identifier :=
              match (extractAnnotationFields ((ensureArray a.infon).map normInfon)).1 with
              | none => none
              | some v => if v = "" then none else some v
            type := (extractAnnotationFields ((ensureArray a.infon).map normInfon)).2
            offset := 0
            length := 0
            text := a.text.getD "" } := by
  unfold normAnnotation
  rw [h]
  rfl

lemma normAnnotation_eq_of_cons (a : AnnotationData) (x : LocationData) (xs : List LocationData)
    (h : a.location = .many (x :: xs)) :
    normAnnotation a =
      .ok { annotationId := a.id.getD ""
            identifier :=
              match (extractAnnotationFields ((ensureArray a.infon).map normInfon)).1 with
              | none => none
              | some v => if v = "" then none else some v
            type := (extractAnnotationFields ((ensureArray a.infon).map normInfon)).2
            offset := x.offset.getD 0
            length := x.length.getD 0
            text := a.text.getD "" } := by
  unfold normAnnotation
  rw [h]
  rfl

lemma normAnnotation_ok_of_wellFormed (a : AnnotationData)
    (h : locationWellFormed a.location = true) :
    ∃ r, normAnnotation a = .ok r
      ∧ r.annotationId = a.id.getD ""
      ∧ r.text = a.text.getD ""
      ∧ (a.location = .absent → r.offset = 0 ∧ r.length = 0)
      ∧ r.type = (lastRecognized "type" ((ensureArray a.infon).map normInfon)).map (fun i => i.value)
      ∧ r.identifier =
          (match (lastRecognized "identifier" ((ensureArray a.infon).map normInfon)).map (fun i => i.value) with
           | none => none
           | some v => if v = "" then none else some v) := by
  cases hloc : a.location with
  | absent =>
      refine ⟨_, normAnnotation_eq_of_absent a hloc, rfl, rfl, fun _ => ⟨rfl, rfl⟩, ?_, ?_⟩
      · show (extractAnnotationFields ((ensureArray a.infon).map normInfon)).2 = _
        rw [extractAnnotationFields_eq]
      · show (match (extractAnnotationFields ((ensureArray a.infon).map normInfon)).1 with
              | none => none
              | some v => if v = "" then none else some v) = _
        rw [extractAnnotationFields_eq]
  | one x => rw [hloc] at h; simp [locationWellFormed] at h
  | many l =>
      cases l with
      | nil => rw [hloc] at h; simp [locationWellFormed] at h
      | cons x xs =>
          refine ⟨_, normAnnotation_eq_of_cons a x xs hloc, rfl, rfl, ?_, ?_, ?_⟩
          · intro hc; exact absurd hc (by simp)
          · show (extractAnnotationFields ((ensureArray a.infon).map normInfon)).2 = _
            rw [extractAnnotationFields_eq]
          · show (match (extractAnnotationFields ((ensureArray a.infon).map normInfon)).1 with
                  | none => none
                  | some v => if v = "" then none else some v) = _
            rw [extractAnnotationFields_eq]

lemma normalizePassage_eq_of_ok (p : PassageData) (rid : Nat) (anns : List AnnRecord)
    (h : mapExcept normAnnotation (ensureArray p.annotation) = .ok anns) :
    normalizePassage p rid =
      .ok { documentId := rid
            offset := p.offset.getD 0
            text := p.text.getD ""
            sectionType := (extractPassageFields ((ensureArray p.infon).map normInfon)).1
            type := (extractPassageFields ((ensureArray p.infon).map normInfon)).2
            infons := (ensureArray p.infon).map normInfon
            annotations := anns } := by
  unfold normalizePassage
  rw [h]

/-! ## Claim theorems -/

/-- C4.  The annotation filter includes every document when the
required-annotation list is empty; otherwise it includes a document
exactly when some passage's annotation carries an infon whose key is
`type` or `identifier` and whose (defaulted) text equals, by
case-sensitive string equality, a member of the required list. -/
theorem C4_annotation_filter (requiredAnnotations : List String) (doc : DocumentData) :
    shouldProcessDocument requiredAnnotations doc = true ↔
      (requiredAnnotations = [] ∨
        ∃ p ∈ ensureArray doc.passage, ∃ a ∈ ensureArray p.annotation,
          ∃ i ∈ ensureArray a.infon,
            (i.key = some "type" ∨ i.key = some "identifier")
              ∧ (i.text.getD "") ∈ requiredAnnotations) := by
  unfold shouldProcessDocument
  by_cases hreq : requiredAnnotations.isEmpty
  · simp [hreq, List.isEmpty_iff.mp hreq]
  · rw [if_neg hreq]
    simp only [List.any_eq_true, Bool.and_eq_true, Bool.or_eq_true,
      decide_eq_true_eq, List.elem_iff]
    constructor
    · rintro ⟨p, hp, a, ha, i, hi, hkey, hmem⟩
      exact Or.inr ⟨p, hp, a, ha, i, hi, hkey, hmem⟩
    · rintro (h | ⟨p, hp, a, ha, i, hi, hkey, hmem⟩)
      · exact absurd (List.isEmpty_iff.mpr h) hreq
      · exact ⟨p, hp, a, ha, i, hi, hkey, hmem⟩

/-- C6 (amended).  For passages, the derived `sectionType` and `type`
columns carry the value of the last infon with the recognized key (and
are null when no such infon exists, so unrecognized keys never populate
them).  For annotations the same holds for `type`; the `identifier`
column also takes the last `identifier` infon's value, except that an
empty-string value is stored as null (`identifier?.toString() || null`). -/
theorem C6_last_occurrence_wins :
    (∀ (p : PassageData) (rid : Nat) (q : NormPassage),
        normalizePassage p rid = .ok q →
          q.sectionType
              = (lastRecognized "section_type" ((ensureArray p.infon).map normInfon)).map (fun i => i.value)
            ∧ q.type
              = (lastRecognized "type" ((ensureArray p.infon).map normInfon)).map (fun i => i.value))
    ∧ (∀ (a : AnnotationData) (r : AnnRecord),
        normAnnotation a = .ok r →
          r.type = (lastRecognized "type" ((ensureArray a.infon).map normInfon)).map (fun i => i.value)
            ∧ r.identifier =
                (match (lastRecognized "identifier" ((ensureArray a.infon).map normInfon)).map (fun i => i.value) with
                 | none => none
                 | some v => if v = "" then none else some v)) := by
  constructor
  · intro p rid q h
    cases hm : mapExcept normAnnotation (ensureArray p.annotation) with
    | error e =>
        unfold normalizePassage at h
        rw [hm] at h
        cases h
    | ok anns =>
        rw [normalizePassage_eq_of_ok p rid anns hm] at h
        injection h with h
        subst h
        constructor
        · show (extractPassageFields ((ensureArray p.infon).map normInfon)).1 = _
          rw [extractPassageFields_eq]
        · show (extractPassageFields ((ensureArray p.infon).map normInfon)).2 = _
          rw [extractPassageFields_eq]
  · intro a r h
    cases hloc : a.location with
    | absent =>
        rw [normAnnotation_eq_of_absent a hloc] at h
        injection h with h
        subst h
        constructor
        · show (extractAnnotationFields ((ensureArray a.infon).map normInfon)).2 = _
          rw [extractAnnotationFields_eq]
        · show (match (extractAnnotationFields ((ensureArray a.infon).map normInfon)).1 with
                | none => none
                | some v => if v = "" then none else some v) = _
          rw [extractAnnotationFields_eq]
    | one x =>
        unfold normAnnotation at h
        rw [hloc] at h
        cases h
    | many l =>
        cases l with
        | nil =>
            unfold normAnnotation at h
            rw [hloc] at h
            cases h
        | cons x xs =>
            rw [normAnnotation_eq_of_cons a x xs hloc] at h
            injection h with h
            subst h
            constructor
            · show (extractAnnotationFields ((ensureArray a.infon).map normInfon)).2 = _
              rw [extractAnnotationFields_eq]
            · show (match (extractAnnotationFields ((ensureArray a.infon).map normInfon)).1 with
                    | none => none
                    | some v => if v = "" then none else some v) = _
              rw [extractAnnotationFields_eq]

/-- C6 counterexample.  An annotation whose last `identifier` infon has
the empty string as value stores `identifier = null`, not the value of
the last occurrence: the claim as stated fails on this input. -/
theorem C6_counterexample :
    normAnnotation exAnnIdentifierEmpty
        = .ok { annotationId := "a1", identifier := none, type := none,
                offset := 0, length := 0, text := "t" }
      ∧ lastRecognized "identifier" ((ensureArray exAnnIdentifierEmpty.infon).map normInfon)
        = some { key := "identifier", value := "" } := by
  exact ⟨rfl, rfl⟩

/-- C6 witness: a passage with infons
`[{section_type, title}, {type, front}]` yields `sectionType = title`
and `type = front`. -/
theorem C6_last_occurrence_wins_witness :
    normalizePassage exPassageSec 0 = .ok exNormSec
      ∧ (exNormSec.sectionType
            = (lastRecognized "section_type" ((ensureArray exPassageSec.infon).map normInfon)).map (fun i => i.value)
          ∧ exNormSec.type
            = (lastRecognized "type" ((ensureArray exPassageSec.infon).map normInfon)).map (fun i => i.value)) :=
  ⟨by decide, C6_last_occurrence_wins.1 exPassageSec 0 exNormSec (by decide)⟩

/-- C8 (amended).  One-or-many coercion: a bare element becomes a
one-element list, a list is kept, an absent field becomes empty — and a
document, passage or annotation supplying a bare single passage, infon
or annotation is processed exactly like one supplying the one-element
list.  The `location` field is exempt: it is read by direct indexing
without coercion (see the counterexample). -/
theorem C8_one_or_many_coercion :
    (∀ (α : Type) (x : α), ensureArray (OneOrMany.one x) = [x])
    ∧ (∀ (α : Type) (l : List α), ensureArray (OneOrMany.many l) = l)
    ∧ (∀ (α : Type), ensureArray (OneOrMany.absent : OneOrMany α) = [])
    ∧ (∀ (doc : DocumentData) (p : PassageData) (cd : CollectionInput) (s : Store),
        processDocumentOnly { doc with passage := .one p } cd s
          = processDocumentOnly { doc with passage := .many [p] } cd s)
    ∧ (∀ (doc : DocumentData) (p : PassageData) (cd : CollectionInput) (s : Store),
        insertDocumentIfNotExists { doc with passage := .one p } cd s
          = insertDocumentIfNotExists { doc with passage := .many [p] } cd s)
    ∧ (∀ (p : PassageData) (i : InfonData) (rid : Nat),
        normalizePassage { p with infon := .one i } rid
          = normalizePassage { p with infon := .many [i] } rid)
    ∧ (∀ (p : PassageData) (a : AnnotationData) (rid : Nat),
        normalizePassage { p with annotation := .one a } rid
          = normalizePassage { p with annotation := .many [a] } rid)
    ∧ (∀ (a : AnnotationData) (i : InfonData),
        normAnnotation { a with infon := .one i }
          = normAnnotation { a with infon := .many [i] }) :=
  ⟨fun _ _ => rfl, fun _ _ => rfl, fun _ => rfl, fun _ _ _ _ => rfl, fun _ _ _ _ => rfl,
   fun _ _ _ => rfl, fun _ _ _ => rfl, fun _ _ => rfl⟩

/-- C8 counterexample.  A bare single `location` does not normalize like
the one-element list containing it: the bare element makes normalization
throw, the list succeeds. -/
theorem C8_counterexample :
    normAnnotation { id := some "a", infon := .absent,
                     location := .one { offset := some 5, length := some 3 }, text := none }
        = .error .typeError
      ∧ normAnnotation { id := some "a", infon := .absent,
                         location := .many [{ offset := some 5, length := some 3 }], text := none }
        = .ok { annotationId := "a", identifier := none, type := none,
                offset := 5, length := 3, text := "" } :=
  ⟨rfl, rfl⟩

/-- C5 (amended).  Normalization fills absent optional fields with their
defaults and never fails on them: absent text becomes the empty string,
an absent offset becomes 0, absent classification keys yield null
columns, and an absent location sequence yields offset = length = 0.
The proviso `locationWellFormed` excludes the present-but-empty (or
bare, see C8) location sequence, on which normalization throws instead
of defaulting (see the counterexample). -/
theorem C5_normalizer_defaults :
    (∀ a : AnnotationData, locationWellFormed a.location = true →
        ∃ r, normAnnotation a = .ok r
          ∧ (a.text = none → r.text = "")
          ∧ (a.location = .absent → r.offset = 0 ∧ r.length = 0)
          ∧ (lastRecognized "identifier" ((ensureArray a.infon).map normInfon) = none → r.identifier = none)
          ∧ (lastRecognized "type" ((ensureArray a.infon).map normInfon) = none → r.type = none))
    ∧ (∀ (p : PassageData) (rid : Nat),
        (∀ a ∈ ensureArray p.annotation, locationWellFormed a.location = true) →
        ∃ q, normalizePassage p rid = .ok q
          ∧ (p.text = none → q.text = "")
          ∧ (p.offset = none → q.offset = 0)
          ∧ (lastRecognized "section_type" ((ensureArray p.infon).map normInfon) = none → q.sectionType = none)
          ∧ (lastRecognized "type" ((ensureArray p.infon).map normInfon) = none → q.type = none)) := by
  constructor
  · intro a h
    obtain ⟨r, hr, hid, htext, hloc, htype, hident⟩ := normAnnotation_ok_of_wellFormed a h
    refine ⟨r, hr, ?_, hloc, ?_, ?_⟩
    · intro hn; rw [htext, hn]; rfl
    · intro hn; rw [hident, hn]; rfl
    · intro hn; rw [htype, hn]; rfl
  · intro p rid hall
    obtain ⟨anns, hanns⟩ := mapExcept_ok_of_forall normAnnotation (ensureArray p.annotation)
      (fun a ha => by
        obtain ⟨r, hr, _⟩ := normAnnotation_ok_of_wellFormed a (hall a ha)
        exact ⟨r, hr⟩)
    refine ⟨_, normalizePassage_eq_of_ok p rid anns hanns, ?_, ?_, ?_, ?_⟩
    · intro hn; show p.text.getD "" = ""; rw [hn]; rfl
    · intro hn; show p.offset.getD 0 = 0; rw [hn]; rfl
    · intro hn
      show (extractPassageFields ((ensureArray p.infon).map normInfon)).1 = none
      rw [extractPassageFields_eq, hn]
      rfl
    · intro hn
      show (extractPassageFields ((ensureArray p.infon).map normInfon)).2 = none
      rw [extractPassageFields_eq, hn]
      rfl

/-- C5 counterexample.  An annotation whose location sequence is present
but empty makes normalization throw a `TypeError`
(`location?.[0].attributes` — the optional chain does not guard the
empty array), instead of defaulting offset and length to 0. -/
theorem C5_counterexample :
    exAnnEmptyLoc.location = .many []
      ∧ normAnnotation exAnnEmptyLoc = .error .typeError :=
  ⟨rfl, rfl⟩

/-- C5 witness: a bare annotation and a bare passage normalize to all
defaults. -/
theorem C5_normalizer_defaults_witness :
    (locationWellFormed exAnnNoLoc.location = true
      ∧ ∃ r, normAnnotation exAnnNoLoc = .ok r
          ∧ (exAnnNoLoc.text = none → r.text = "")
          ∧ (exAnnNoLoc.location = .absent → r.offset = 0 ∧ r.length = 0)
          ∧ (lastRecognized "identifier" ((ensureArray exAnnNoLoc.infon).map normInfon) = none → r.identifier = none)
          ∧ (lastRecognized "type" ((ensureArray exAnnNoLoc.infon).map normInfon) = none → r.type = none))
    ∧ ((∀ a ∈ ensureArray exPassageBare.annotation, locationWellFormed a.location = true)
      ∧ ∃ q, normalizePassage exPassageBare 0 = .ok q
          ∧ (exPassageBare.text = none → q.text = "")
          ∧ (exPassageBare.offset = none → q.offset = 0)
          ∧ (lastRecognized "section_type" ((ensureArray exPassageBare.infon).map normInfon) = none → q.sectionType = none)
          ∧ (lastRecognized "type" ((ensureArray exPassageBare.infon).map normInfon) = none → q.type = none)) :=
  ⟨⟨rfl, C5_normalizer_defaults.1 exAnnNoLoc rfl⟩,
   ⟨by decide, C5_normalizer_defaults.2 exPassageBare 0 (by decide)⟩⟩

/-- C10 (amended).  A missing annotation id is never itself an error:
any annotation whose location sequence is absent or nonempty (the
proviso forced by the empty-location throw, see the counterexample)
normalizes successfully with `annotationId = ""` when its id is absent.
In contrast, a missing document id makes the whole document upsert
throw. -/
theorem C10_missing_annotation_id :
    (∀ a : AnnotationData, a.id = none → locationWellFormed a.location = true →
        ∃ r, normAnnotation a = .ok r ∧ r.annotationId = "")
    ∧ (∀ (doc : DocumentData) (cd : CollectionInput) (s : Store), doc.id = none →
        processDocumentOnly doc cd s = .error .typeError) := by
  constructor
  · intro a hid h
    obtain ⟨r, hr, hrid, _⟩ := normAnnotation_ok_of_wellFormed a h
    exact ⟨r, hr, by rw [hrid, hid]; rfl⟩
  · intro doc cd s hid
    unfold processDocumentOnly
    rw [hid]

/-- C10 counterexample.  An annotation with absent id does not always
normalize: with a present-but-empty location sequence normalization
throws, so the claim's unconditional "normalization succeeds" fails. -/
theorem C10_counterexample :
    exAnnNoIdBadLoc.id = none
      ∧ normAnnotation exAnnNoIdBadLoc = .error .typeError :=
  ⟨rfl, rfl⟩

/-- C10 witness: an id-less annotation with a one-element location list
normalizes with empty `annotationId`, while an id-less document makes
the replace upsert throw. -/
theorem C10_missing_annotation_id_witness :
    (exAnnNoId.id = none ∧ locationWellFormed exAnnNoId.location = true
      ∧ ∃ r, normAnnotation exAnnNoId = .ok r ∧ r.annotationId = "")
    ∧ (exDocNoId.id = none
      ∧ processDocumentOnly exDocNoId exCollectionInput emptyStore = .error .typeError) :=
  ⟨⟨rfl, rfl, C10_missing_annotation_id.1 exAnnNoId rfl rfl⟩,
   ⟨rfl, C10_missing_annotation_id.2 exDocNoId exCollectionInput emptyStore rfl⟩⟩

lemma chunkFuel_nil (bs fuel : Nat) : chunkFuel bs fuel ([] : List α) = [] := by
  cases fuel <;> rfl

lemma drop_length_le (bs n : Nat) (hbs : 1 ≤ bs) (x : α) (xs : List α)
    (hl : (x :: xs).length ≤ n + 1) :
    (List.drop bs (x :: xs)).length ≤ n := by
  rw [List.length_drop]
  rw [List.length_cons] at hl ⊢
  omega

lemma chunkFuel_flatten (bs : Nat) (hbs : 1 ≤ bs) :
    ∀ (fuel : Nat) (l : List α), l.length ≤ fuel → (chunkFuel bs fuel l).flatten = l := by
  intro fuel
  induction fuel with
  | zero =>
      intro l hl
      rw [List.eq_nil_of_length_eq_zero (Nat.le_zero.mp hl), chunkFuel_nil]
      rfl
  | succ n ih =>
      intro l hl
      cases l with
      | nil => rfl
      | cons x xs =>
          show (List.take bs (x :: xs) :: chunkFuel bs n (List.drop bs (x :: xs))).flatten = x :: xs
          rw [List.flatten_cons, ih _ (drop_length_le bs n hbs x xs (by omega)), List.take_append_drop]

lemma chunkFuel_length (bs : Nat) (hbs : 1 ≤ bs) :
    ∀ (fuel : Nat) (l : List α), l.length ≤ fuel →
      (chunkFuel bs fuel l).length = (l.length + bs - 1) / bs := by
  intro fuel
  induction fuel with
  | zero =>
      intro l hl
      rw [List.eq_nil_of_length_eq_zero (Nat.le_zero.mp hl), chunkFuel_nil]
      simp [Nat.div_eq_of_lt (by omega : bs - 1 < bs)]
  | succ n ih =>
      intro l hl
      cases l with
      | nil => simp [chunkFuel_nil, Nat.div_eq_of_lt (by omega : bs - 1 < bs)]
      | cons x xs =>
          show (List.take bs (x :: xs) :: chunkFuel bs n (List.drop bs (x :: xs))).length
              = ((x :: xs).length + bs - 1) / bs
          rw [List.length_cons, ih _ (drop_length_le bs n hbs x xs (by omega))]
          rw [List.length_drop]
          rcases Nat.lt_or_ge (x :: xs).length bs with hlt | hge
          · have h1 : (x :: xs).length - bs = 0 := by omega
            have h2 : (0 + bs - 1) / bs = 0 := by
              rw [Nat.zero_add]
              exact Nat.div_eq_of_lt (by omega)
            rw [List.length_cons] at hlt ⊢
            have h3 : (xs.length + 1 + bs - 1) / bs = 1 := by
              apply Nat.div_eq_of_lt_le <;> omega
            rw [List.length_cons] at h1
            rw [h1, h2, h3]
          · have h1 : (x :: xs).length - bs + bs - 1 = (x :: xs).length - 1 := by
              rw [List.length_cons] at hge ⊢; omega
            have h2 : (x :: xs).length + bs - 1 = ((x :: xs).length - 1) + bs := by
              rw [List.length_cons]; omega
            rw [h1, h2, Nat.add_div_right _ (by omega : 0 < bs)]

lemma chunkFuel_mem (bs : Nat) (hbs : 1 ≤ bs) :
    ∀ (fuel : Nat) (l : List α) (b : List α), l.length ≤ fuel →
      b ∈ chunkFuel bs fuel l → b ≠ [] ∧ b.length ≤ bs := by
  intro fuel
  induction fuel with
  | zero =>
      intro l b hl hb
      rw [List.eq_nil_of_length_eq_zero (Nat.le_zero.mp hl), chunkFuel_nil] at hb
      cases hb
  | succ n ih =>
      intro l b hl hb
      cases l with
      | nil => rw [chunkFuel_nil] at hb; cases hb
      | cons x xs =>
          have hb' : b ∈ List.take bs (x :: xs) :: chunkFuel bs n (List.drop bs (x :: xs)) := hb
          rcases List.mem_cons.mp hb' with hbt | hbt
          · subst hbt
            constructor
            · cases bs with
              | zero => omega
              | succ m => simp [List.take_cons]
            · rw [List.length_take]
              omega
          · exact ih _ b (drop_length_le bs n hbs x xs (by omega)) hbt

lemma chunkFuel_dropLast (bs : Nat) (hbs : 1 ≤ bs) :
    ∀ (fuel : Nat) (l : List α) (b : List α), l.length ≤ fuel →
      b ∈ (chunkFuel bs fuel l).dropLast → b.length = bs := by
  intro fuel
  induction fuel with
  | zero =>
      intro l b hl hb
      rw [List.eq_nil_of_length_eq_zero (Nat.le_zero.mp hl), chunkFuel_nil] at hb
      cases hb
  | succ n ih =>
      intro l b hl hb
      cases l with
      | nil => rw [chunkFuel_nil] at hb; cases hb
      | cons x xs =>
          have hb' : b ∈ (List.take bs (x :: xs) :: chunkFuel bs n (List.drop bs (x :: xs))).dropLast := hb
          cases hrest : chunkFuel bs n (List.drop bs (x :: xs)) with
          | nil => rw [hrest] at hb'; cases hb'
          | cons r rs =>
              rw [hrest, List.dropLast_cons₂] at hb'
              rcases List.mem_cons.mp hb' with hbt | hbt
              · subst hbt
                have hne : List.drop bs (x :: xs) ≠ [] := by
                  intro hcon
                  rw [hcon, chunkFuel_nil] at hrest
                  cases hrest
                have hlen : bs < (x :: xs).length := by
                  have := List.length_pos.mpr hne
                  rw [List.length_drop] at this
                  omega
                rw [List.length_take]
                omega
              · rw [← hrest] at hbt
                exact ih _ b (drop_length_le bs n hbs x xs (by omega)) hbt

/-- C7 (amended).  The batch scheduler chunks a non-empty list of n
documents at batch size b = ceil(n/concurrency) into
ceil(n/b) contiguous slices — at most `concurrency` many, but fewer when
b(concurrency−1) ≥ n — each non-empty of size at most b, every slice
except possibly the last of size exactly b, and their concatenation in
order is the input list. -/
theorem C7_batch_partition (α : Type) (concurrency : Nat) (docs : List α)
    (hc : 1 ≤ concurrency) (hne : docs ≠ []) :
    (chunkBatches concurrency docs).flatten = docs
    ∧ (chunkBatches concurrency docs).length
        = (docs.length + (docs.length + concurrency - 1) / concurrency - 1)
            / ((docs.length + concurrency - 1) / concurrency)
    ∧ (chunkBatches concurrency docs).length ≤ concurrency
    ∧ (∀ b ∈ chunkBatches concurrency docs,
        b ≠ [] ∧ b.length ≤ (docs.length + concurrency - 1) / concurrency)
    ∧ (∀ b ∈ (chunkBatches concurrency docs).dropLast,
        b.length = (docs.length + concurrency - 1) / concurrency) := by
  have hn : 1 ≤ docs.length := List.length_pos.mpr hne
  have hbs : 1 ≤ (docs.length + concurrency - 1) / concurrency := by
    rw [Nat.one_le_div_iff (by omega)]
    omega
  refine ⟨chunkFuel_flatten _ hbs docs.length docs (Nat.le_refl _),
          chunkFuel_length _ hbs docs.length docs (Nat.le_refl _), ?_,
          fun b hb => chunkFuel_mem _ hbs docs.length docs b (Nat.le_refl _) hb,
          fun b hb => chunkFuel_dropLast _ hbs docs.length docs b (Nat.le_refl _) hb⟩
  rw [show chunkBatches concurrency docs
        = chunkFuel ((docs.length + concurrency - 1) / concurrency) docs.length docs from rfl,
      chunkFuel_length _ hbs docs.length docs (Nat.le_refl _)]
  set bs := (docs.length + concurrency - 1) / concurrency with hbsdef
  have h1 : docs.length ≤ concurrency * bs := by
    have hdm := Nat.div_add_mod (docs.length + concurrency - 1) concurrency
    have hr : (docs.length + concurrency - 1) % concurrency < concurrency :=
      Nat.mod_lt _ (by omega)
    rw [← hbsdef] at hdm
    generalize hK : concurrency * bs = K at hdm
    omega
  rw [Nat.div_le_iff_le_mul_add_pred (by omega : 0 < bs)]
  rw [Nat.mul_comm concurrency bs] at h1
  generalize hM : bs * concurrency = M at h1 ⊢
  omega

/-- C7 counterexample.  Eleven documents at the source's concurrency 10
produce 6 batches (batch size ceil(11/10) = 2), not "exactly c = 10
slices" as claimed. -/
theorem C7_counterexample :
    (List.range 11).length = 11
      ∧ CONCURRENCY = 10
      ∧ (makeBatches (List.range 11)).length = 6
      ∧ (makeBatches (List.range 11)).length ≠ CONCURRENCY := by decide

/-- C7 witness: 97 documents at concurrency 10 give 10 non-empty batches
of size at most 10 covering the input exactly once in order. -/
theorem C7_batch_partition_witness :
    (chunkBatches 10 (List.range 97)).flatten = List.range 97
      ∧ (chunkBatches 10 (List.range 97)).length = 10
      ∧ (∀ b ∈ chunkBatches 10 (List.range 97), b ≠ [] ∧ b.length ≤ 10) := by
  obtain ⟨h1, h2, h3, h4, h5⟩ := C7_batch_partition Nat 10 (List.range 97) (by decide) (by decide)
  refine ⟨h1, ?_, ?_⟩
  · rw [h2]
    norm_num
  · intro b hb
    have := h4 b hb
    simpa using this

lemma getOrCreateCollection_isOk (cd : CollectionInput) (s : Store) :
    ∃ c s1, getOrCreateCollection cd s = .ok (c, s1)
      ∧ s1.documents = s.documents ∧ s1.passages = s.passages ∧ s.nextId ≤ s1.nextId := by
  unfold getOrCreateCollection findCollectionByKey createCollection
  cases h : s.collections.find? (fun c => c.key = cd.key) with
  | some c => exact ⟨c, s, rfl, rfl, rfl, Nat.le_refl _⟩
  | none =>
      have hany : (s.collections.any (fun c => c.key = cd.key)) = false := by
        rw [List.any_eq_false]
        intro x hx
        have := List.find?_eq_none.mp h x hx
        simpa using this
      simp only [hany, Bool.false_eq_true, if_false]
      exact ⟨_, _, rfl, rfl, rfl, Nat.le_succ _⟩

lemma createDocument_ok_eq (docId : String) (cid : Nat) (s : Store)
    (h : ∀ d ∈ s.documents, ¬ d.documentId = docId) :
    createDocument docId cid s
      = .ok ({ id := s.nextId, documentId := docId, collectionId := cid },
             { s with nextId := s.nextId + 1,
                      documents := s.documents
                        ++ [{ id := s.nextId, documentId := docId, collectionId := cid }] }) := by
  unfold createDocument
  have hany : s.documents.any (fun d => d.documentId = docId) = false := by
    rw [List.any_eq_false]
    intro x hx
    simpa using h x hx
  simp only [hany, Bool.false_eq_true, if_false]

lemma deleteBranch_basic (docId : String) (s1 s2 : Store)
    (h : s2 = match findDocumentByDocumentId docId s1 with
              | some _ => deleteDocumentCascading docId s1
              | none => s1) :
    (∀ d ∈ s2.documents, ¬ d.documentId = docId)
      ∧ s2.nextId = s1.nextId
      ∧ (∀ d ∈ s2.documents, d ∈ s1.documents)
      ∧ (∀ p ∈ s2.passages, p ∈ s1.passages)
      ∧ (∀ d ∈ s1.documents, ¬ d.documentId = docId → d ∈ s2.documents) := by
  cases hf : findDocumentByDocumentId docId s1 with
  | none =>
      rw [hf] at h
      rw [h]
      have hf2 : s1.documents.find? (fun d => d.documentId = docId) = none := hf
      have hno : ∀ d ∈ s1.documents, ¬ d.documentId = docId := by
        intro d hd
        have := List.find?_eq_none.mp hf2 d hd
        simpa using this
      exact ⟨hno, rfl, fun d hd => hd, fun p hp => hp, fun d hd _ => hd⟩
  | some row =>
      rw [hf] at h
      have hf2 : s1.documents.find? (fun d => d.documentId = docId) = some row := hf
      unfold deleteDocumentCascading at h
      rw [hf2] at h
      subst h
      refine ⟨?_, rfl, ?_, ?_, ?_⟩
      · intro d hd
        have := (List.mem_filter.mp hd).2
        simpa using this
      · intro d hd
        exact (List.mem_filter.mp hd).1
      · intro p hp
        exact (List.mem_filter.mp hp).1
      · intro d hd hne
        exact List.mem_filter.mpr ⟨hd, by simpa using hne⟩

lemma deleteBranch_cascade (docId : String) (s1 s2 : Store)
    (hnodup : (s1.documents.map (fun d => d.documentId)).Nodup)
    (h : s2 = match findDocumentByDocumentId docId s1 with
              | some _ => deleteDocumentCascading docId s1
              | none => s1) :
    (s2.documents.map (fun d => d.documentId)).Nodup
      ∧ (∀ dOld ∈ s1.documents, dOld.documentId = docId →
          ∀ p ∈ s2.passages, ¬ p.documentId = dOld.id) := by
  cases hf : findDocumentByDocumentId docId s1 with
  | none =>
      rw [hf] at h
      rw [h]
      have hf2 : s1.documents.find? (fun d => d.documentId = docId) = none := hf
      have hno : ∀ d ∈ s1.documents, ¬ d.documentId = docId := by
        intro d hd
        have := List.find?_eq_none.mp hf2 d hd
        simpa using this
      exact ⟨hnodup, fun dOld hdOld hkey => absurd hkey (hno dOld hdOld)⟩
  | some row =>
      rw [hf] at h
      have hf2 : s1.documents.find? (fun d => d.documentId = docId) = some row := hf
      unfold deleteDocumentCascading at h
      rw [hf2] at h
      subst h
      have hrowmem : row ∈ s1.documents := List.mem_of_find?_eq_some hf2
      have hrowkey : row.documentId = docId := by
        have := List.find?_some hf2
        simpa using this
      refine ⟨(hnodup.sublist (List.Sublist.map _ (List.filter_sublist _))), ?_⟩
      intro dOld hdOld hkey p hp
      have hEq : dOld = row :=
        List.inj_on_of_nodup_map hnodup hdOld hrowmem (by rw [hkey, hrowkey])
      have := (List.mem_filter.mp hp).2
      rw [hEq]
      simpa using this

lemma processPassages_isError (passages : List PassageData) (rid : Nat) (s : Store) :
    exceptIsError (processPassagesWithoutProgress passages rid s)
      = exceptIsError (mapExcept (fun p => normalizePassage p 0) passages) := by
  unfold processPassagesWithoutProgress
  have hfun : (fun p => normalizePassage p rid)
      = (fun p => (normalizePassage p 0).map (fun q => { q with documentId := rid })) :=
    funext (fun p => normalizePassage_shift p rid)
  rw [hfun, mapExcept_map]
  cases h0 : mapExcept (fun p => normalizePassage p 0) passages <;> rfl

lemma processDocumentOnly_isError (doc : DocumentData) (cd : CollectionInput) (s : Store) :
    exceptIsError (processDocumentOnly doc cd s) = upsertFails doc := by
  unfold processDocumentOnly upsertFails
  cases hid : doc.id with
  | none => rfl
  | some docId =>
      obtain ⟨c, s1, hg, hdocs, hpass, hnext⟩ := getOrCreateCollection_isOk cd s
      rw [hg]
      obtain ⟨hA, -, -, -, -⟩ := deleteBranch_basic docId s1 _ rfl
      have hcd := createDocument_ok_eq docId c.id _ hA
      show exceptIsError
          (match createDocument docId c.id
              (match findDocumentByDocumentId docId s1 with
               | some _ => deleteDocumentCascading docId s1
               | none => s1) with
           | .error e => .error e
           | .ok (dbDocument, s3) =>
             if (ensureArray doc.passage).isEmpty then Except.ok s3
             else processPassagesWithoutProgress (ensureArray doc.passage) dbDocument.id s3)
        = _
      rw [hcd]
      show exceptIsError
          (if (ensureArray doc.passage).isEmpty then _
           else processPassagesWithoutProgress (ensureArray doc.passage) _ _) = _
      cases hemp : (ensureArray doc.passage).isEmpty with
      | true =>
          show false = ((some docId : Option String).isNone || normalizeDocFails doc)
          unfold normalizeDocFails
          rw [List.isEmpty_iff.mp hemp]
          rfl
      | false =>
          show exceptIsError
              (processPassagesWithoutProgress (ensureArray doc.passage) _ _) = _
          rw [processPassages_isError]
          show normalizeDocFails doc = ((some docId : Option String).isNone || normalizeDocFails doc)
          rw [Option.isNone_some, Bool.false_or]

lemma sliceAttempts_eq (b : List DocumentInfo) :
    sliceAttempts b
      = b.takeWhile (fun d => !upsertFails d.document)
          ++ (b.dropWhile (fun d => !upsertFails d.document)).take 1 := by
  induction b with
  | nil => rfl
  | cons d rest ih =>
      by_cases h : upsertFails d.document
      · simp [sliceAttempts, h, List.takeWhile_cons, List.dropWhile_cons]
      · simp [sliceAttempts, h, List.takeWhile_cons, List.dropWhile_cons, ih]

lemma sliceAttempts_of_all_ok (b : List DocumentInfo)
    (h : ∀ d ∈ b, upsertFails d.document = false) : sliceAttempts b = b := by
  induction b with
  | nil => rfl
  | cons d rest ih =>
      unfold sliceAttempts
      rw [h d (List.mem_cons_self d rest)]
      rw [if_neg (by simp)]
      rw [ih (fun e he => h e (List.mem_cons_of_mem d he))]

/-- C3 (amended).  A document failure is not caught by the batch
scheduler: each slice attempts its documents in order up to and
including its first failing one and then stops, any failure makes the
awaited `Promise.all` reject, and when no document fails every document
is attempted.  One slice's failure does not stop another slice's loop.
A document's upsert throws exactly when the document itself is bad
(missing natural id or unnormalizable passage), independent of the
store. -/
theorem C3_slice_error_scope (validDocuments : List DocumentInfo) :
    ((processValidDocumentsModel validDocuments).rejected = true
        ↔ ∃ d ∈ validDocuments, upsertFails d.document = true)
    ∧ (∀ b ∈ makeBatches validDocuments,
        sliceAttempts b
          = b.takeWhile (fun d => !upsertFails d.document)
            ++ (b.dropWhile (fun d => !upsertFails d.document)).take 1)
    ∧ ((∀ d ∈ validDocuments, upsertFails d.document = false) →
        (processValidDocumentsModel validDocuments).attempted = validDocuments)
    ∧ (∀ (d : DocumentData) (cd : CollectionInput) (s : Store),
        exceptIsError (processDocumentOnly d cd s) = upsertFails d) := by
  have hflat : (makeBatches validDocuments).flatten = validDocuments := by
    cases hv : validDocuments with
    | nil => rfl
    | cons x xs =>
        have hbs : 1 ≤ ((x :: xs).length + CONCURRENCY - 1) / CONCURRENCY := by
          rw [Nat.one_le_div_iff (by decide)]
          rw [List.length_cons]
          omega
        exact chunkFuel_flatten _ hbs _ _ (Nat.le_refl _)
  refine ⟨?_, fun b _ => sliceAttempts_eq b, ?_, ?_⟩
  · show ((makeBatches validDocuments).any fun b => b.any fun d => upsertFails d.document) = true ↔ _
    simp only [List.any_eq_true]
    constructor
    · rintro ⟨b, hb, d, hd, hfail⟩
      refine ⟨d, ?_, hfail⟩
      rw [← hflat]
      exact List.mem_flatten.mpr ⟨b, hb, hd⟩
    · rintro ⟨d, hd, hfail⟩
      rw [← hflat] at hd
      obtain ⟨b, hb, hdb⟩ := List.mem_flatten.mp hd
      exact ⟨b, hb, d, hdb, hfail⟩
  · intro hok
    show ((makeBatches validDocuments).map sliceAttempts).flatten = validDocuments
    rw [List.map_congr_left (fun b hb => sliceAttempts_of_all_ok b
      (fun d hd => hok d (by rw [← hflat]; exact List.mem_flatten.mpr ⟨b, hb, hd⟩)))]
    rw [show (fun b : List DocumentInfo => b) = id from rfl, List.map_id]
    exact hflat
  · exact processDocumentOnly_isError

/-- C3 counterexample.  Among eleven documents (batch size 2) whose
first lacks its natural id, the second — sharing the first slice with
the failing one — is never attempted, and the scheduler rejects instead
of catching the failure: remaining documents of the failing slice are
not processed. -/
theorem C3_counterexample :
    (makeBatches elevenDocs).head? = some [simpleInfo { id := none, passage := .absent } 0,
        simpleInfo { id := some "1", passage := .absent } 1]
      ∧ upsertFails ({ id := none, passage := .absent } : DocumentData) = true
      ∧ upsertFails ({ id := some "1", passage := .absent } : DocumentData) = false
      ∧ simpleInfo { id := some "1", passage := .absent } 1
          ∉ (processValidDocumentsModel elevenDocs).attempted
      ∧ (processValidDocumentsModel elevenDocs).rejected = true := by decide

/-- C3 witness: with three well-formed documents every document is
attempted. -/
theorem C3_slice_error_scope_witness :
    (∀ d ∈ goodDocsThree, upsertFails d.document = false)
      ∧ (processValidDocumentsModel goodDocsThree).attempted = goodDocsThree :=
  ⟨by decide, (C3_slice_error_scope goodDocsThree).2.2.1 (by decide)⟩

lemma insertDocumentIfNotExists_eq_new (doc : DocumentData) (docId : String)
    (cd : CollectionInput) (s : Store) (c : CollectionRow) (s1 : Store)
    (row : DocumentRow) (s2 : Store)
    (hid : doc.id = some docId)
    (hf : findDocumentByDocumentId docId s = none)
    (hg : getOrCreateCollection cd s = .ok (c, s1))
    (hcd : createDocument docId c.id s1 = .ok (row, s2)) :
    insertDocumentIfNotExists doc cd s
      = (if (ensureArray doc.passage).isEmpty then .ok (true, s2)
         else match processPassagesWithoutProgress (ensureArray doc.passage) row.id s2 with
              | .error e => .error e
              | .ok s3 => .ok (true, s3)) := by
  unfold insertDocumentIfNotExists
  rw [hid]
  show (if (findDocumentByDocumentId docId s).isSome then Except.ok (false, s)
        else match getOrCreateCollection cd s with
             | .error e => Except.error e
             | .ok (dbCollection, s1) =>
               match createDocument docId dbCollection.id s1 with
               | .error e => Except.error e
               | .ok (dbDocument, s2) =>
                 if (ensureArray doc.passage).isEmpty then Except.ok (true, s2)
                 else match processPassagesWithoutProgress (ensureArray doc.passage) dbDocument.id s2 with
                      | .error e => Except.error e
                      | .ok s3 => Except.ok (true, s3)) = _
  rw [hf]
  rw [if_neg (by simp)]
  rw [hg]
  show (match createDocument docId c.id s1 with
        | .error e => Except.error e
        | .ok (dbDocument, s2) =>
          if (ensureArray doc.passage).isEmpty then Except.ok (true, s2)
          else match processPassagesWithoutProgress (ensureArray doc.passage) dbDocument.id s2 with
               | .error e => Except.error e
               | .ok s3 => Except.ok (true, s3)) = _
  rw [hcd]

/-- C2 (amended).  Skip mode: when a document with the natural key
already exists, the upsert writes nothing — the returned store is the
input store, untouched — and reports `inserted = false`.  When the key
is absent and the document's passages normalize, it creates the
document row and its passage subtree and reports `inserted = true`.
When the key is absent but normalization of the passages throws (see
C5), the upsert raises instead of returning `inserted = true`. -/
theorem C2_skip_mode (doc : DocumentData) (cd : CollectionInput) (s : Store) (docId : String)
    (hid : doc.id = some docId) :
    (∀ existing, findDocumentByDocumentId docId s = some existing →
        insertDocumentIfNotExists doc cd s = .ok (false, s))
    ∧ (findDocumentByDocumentId docId s = none → normalizeDocFails doc = false →
        ∃ (s' : Store) (row : DocumentRow) (rows : List NormPassage),
          insertDocumentIfNotExists doc cd s = .ok (true, s')
            ∧ row.documentId = docId
            ∧ s'.documents = s.documents ++ [row]
            ∧ mapExcept (fun p => normalizePassage p row.id) (ensureArray doc.passage) = .ok rows
            ∧ s'.passages = s.passages ++ rows)
    ∧ (findDocumentByDocumentId docId s = none → normalizeDocFails doc = true →
        exceptIsError (insertDocumentIfNotExists doc cd s) = true) := by
  have hbody : ∀ existing, findDocumentByDocumentId docId s = some existing →
      insertDocumentIfNotExists doc cd s = .ok (false, s) := by
    intro existing hfind
    unfold insertDocumentIfNotExists
    rw [hid]
    show (if (findDocumentByDocumentId docId s).isSome then Except.ok (false, s)
          else match getOrCreateCollection cd s with
               | .error e => Except.error e
               | .ok (dbCollection, s1) =>
                 match createDocument docId dbCollection.id s1 with
                 | .error e => Except.error e
                 | .ok (dbDocument, s2) =>
                   if (ensureArray doc.passage).isEmpty then Except.ok (true, s2)
                   else match processPassagesWithoutProgress (ensureArray doc.passage) dbDocument.id s2 with
                        | .error e => Except.error e
                        | .ok s3 => Except.ok (true, s3)) = _
    rw [hfind]
    rfl
  refine ⟨hbody, ?_, ?_⟩
  · intro hf hnf
    obtain ⟨c, s1, hg, hdocs1, hpass1, hnext1⟩ := getOrCreateCollection_isOk cd s
    have hA : ∀ d ∈ s1.documents, ¬ d.documentId = docId := by
      rw [hdocs1]
      intro d hd
      have hf2 : s.documents.find? (fun d => d.documentId = docId) = none := hf
      have := List.find?_eq_none.mp hf2 d hd
      simpa using this
    have hcd := createDocument_ok_eq docId c.id s1 hA
    rw [insertDocumentIfNotExists_eq_new doc docId cd s c s1 _ _ hid hf hg hcd]
    obtain ⟨rows0, hrows0⟩ : ∃ rows0,
        mapExcept (fun p => normalizePassage p 0) (ensureArray doc.passage) = .ok rows0 := by
      unfold normalizeDocFails at hnf
      cases hm : mapExcept (fun p => normalizePassage p 0) (ensureArray doc.passage) with
      | error e => rw [hm] at hnf; simp [exceptIsError] at hnf
      | ok rows0 => exact ⟨rows0, rfl⟩
    have hmaprid : mapExcept
        (fun p => normalizePassage p ({ id := s1.nextId, documentId := docId, collectionId := c.id } : DocumentRow).id)
        (ensureArray doc.passage)
        = .ok (rows0.map (fun q => { q with documentId := s1.nextId })) := by
      have hfun : (fun p => normalizePassage p s1.nextId)
          = (fun p => (normalizePassage p 0).map (fun q => { q with documentId := s1.nextId })) :=
        funext (fun p => normalizePassage_shift p s1.nextId)
      show mapExcept (fun p => normalizePassage p s1.nextId) (ensureArray doc.passage) = _
      rw [hfun, mapExcept_map, hrows0]
      rfl
    by_cases hemp : (ensureArray doc.passage).isEmpty = true
    · rw [if_pos hemp]
      refine ⟨_, { id := s1.nextId, documentId := docId, collectionId := c.id }, [], rfl, rfl,
        ?_, ?_, ?_⟩
      · show s1.documents ++ _ = s.documents ++ _
        rw [hdocs1]
      · rw [List.isEmpty_iff.mp hemp]
        rfl
      · show s1.passages = s.passages ++ []
        rw [hpass1, List.append_nil]
    · rw [if_neg hemp]
      have hpp : processPassagesWithoutProgress (ensureArray doc.passage)
          ({ id := s1.nextId, documentId := docId, collectionId := c.id } : DocumentRow).id
          { s1 with nextId := s1.nextId + 1,
                    documents := s1.documents
                      ++ [{ id := s1.nextId, documentId := docId, collectionId := c.id }] }
          = .ok { s1 with nextId := s1.nextId + 1,
                          documents := s1.documents
                            ++ [{ id := s1.nextId, documentId := docId, collectionId := c.id }],
                          passages := s1.passages
                            ++ rows0.map (fun q => { q with documentId := s1.nextId }) } := by
        unfold processPassagesWithoutProgress
        rw [hmaprid]
      rw [hpp]
      refine ⟨_, { id := s1.nextId, documentId := docId, collectionId := c.id },
        rows0.map (fun q => { q with documentId := s1.nextId }), rfl, rfl, ?_, hmaprid, ?_⟩
      · show s1.documents ++ _ = s.documents ++ _
        rw [hdocs1]
      · show s1.passages ++ _ = s.passages ++ _
        rw [hpass1]
  · intro hf hnf
    obtain ⟨c, s1, hg, hdocs1, hpass1, hnext1⟩ := getOrCreateCollection_isOk cd s
    have hA : ∀ d ∈ s1.documents, ¬ d.documentId = docId := by
      rw [hdocs1]
      intro d hd
      have hf2 : s.documents.find? (fun d => d.documentId = docId) = none := hf
      have := List.find?_eq_none.mp hf2 d hd
      simpa using this
    have hcd := createDocument_ok_eq docId c.id s1 hA
    rw [insertDocumentIfNotExists_eq_new doc docId cd s c s1 _ _ hid hf hg hcd]
    by_cases hemp : (ensureArray doc.passage).isEmpty = true
    · unfold normalizeDocFails at hnf
      rw [List.isEmpty_iff.mp hemp] at hnf
      simp [mapExcept, exceptIsError] at hnf
    · rw [if_neg hemp]
      have hisErr := processPassages_isError (ensureArray doc.passage)
        ({ id := s1.nextId, documentId := docId, collectionId := c.id } : DocumentRow).id
        { s1 with nextId := s1.nextId + 1,
                  documents := s1.documents
                    ++ [{ id := s1.nextId, documentId := docId, collectionId := c.id }] }
      unfold normalizeDocFails at hnf
      rw [hnf] at hisErr
      cases hppr : processPassagesWithoutProgress (ensureArray doc.passage)
          ({ id := s1.nextId, documentId := docId, collectionId := c.id } : DocumentRow).id
          { s1 with nextId := s1.nextId + 1,
                    documents := s1.documents
                      ++ [{ id := s1.nextId, documentId := docId, collectionId := c.id }] } with
      | error e => rfl
      | ok s3 => rw [hppr] at hisErr; simp [exceptIsError] at hisErr

/-- C2 counterexample.  A document absent from the store whose
annotation has a present-but-empty location list makes the skip-mode
upsert throw: it does not create the passage subtree and return
`inserted = true` as claimed. -/
theorem C2_counterexample :
    findDocumentByDocumentId "7" emptyStore = none
      ∧ exBadLocDoc.id = some "7"
      ∧ insertDocumentIfNotExists exBadLocDoc exCollectionInput emptyStore
        = .error .typeError := by decide

/-- C2 witness: upserting document `1` into a store already holding it
returns `false` and leaves the store untouched; upserting it into the
empty store returns `true` with the document and passage created. -/
theorem C2_skip_mode_witness :
    (findDocumentByDocumentId "1" exStoreExisting
        = some { id := 1, documentId := "1", collectionId := 0 }
      ∧ insertDocumentIfNotExists exDocNew exCollectionInput exStoreExisting
        = .ok (false, exStoreExisting))
    ∧ (findDocumentByDocumentId "1" emptyStore = none ∧ normalizeDocFails exDocNew = false
      ∧ ∃ (s' : Store) (row : DocumentRow) (rows : List NormPassage),
          insertDocumentIfNotExists exDocNew exCollectionInput emptyStore = .ok (true, s')
            ∧ row.documentId = "1"
            ∧ s'.documents = emptyStore.documents ++ [row]
            ∧ mapExcept (fun p => normalizePassage p row.id) (ensureArray exDocNew.passage) = .ok rows
            ∧ s'.passages = emptyStore.passages ++ rows) :=
  ⟨⟨by decide, (C2_skip_mode exDocNew exCollectionInput exStoreExisting "1" rfl).1
      { id := 1, documentId := "1", collectionId := 0 } (by decide)⟩,
   ⟨by decide, by decide,
    (C2_skip_mode exDocNew exCollectionInput emptyStore "1" rfl).2.1 (by decide) (by decide)⟩⟩

lemma processDocumentOnly_eq2 (doc : DocumentData) (docId : String) (cd : CollectionInput)
    (s : Store) (c : CollectionRow) (s1 : Store) (row : DocumentRow) (s3 : Store)
    (hid : doc.id = some docId)
    (hg : getOrCreateCollection cd s = .ok (c, s1))
    (hcd : createDocument docId c.id
        (match findDocumentByDocumentId docId s1 with
         | some _ => deleteDocumentCascading docId s1
         | none => s1) = .ok (row, s3)) :
    processDocumentOnly doc cd s
      = if (ensureArray doc.passage).isEmpty then .ok s3
        else processPassagesWithoutProgress (ensureArray doc.passage) row.id s3 := by
  unfold processDocumentOnly
  rw [hid]
  show (match getOrCreateCollection cd s with
        | .error e => Except.error e
        | .ok (dbCollection, s1) =>
          match createDocument docId dbCollection.id
              (match findDocumentByDocumentId docId s1 with
               | some _ => deleteDocumentCascading docId s1
               | none => s1) with
          | .error e => Except.error e
          | .ok (dbDocument, s3) =>
            if (ensureArray doc.passage).isEmpty then Except.ok s3
            else processPassagesWithoutProgress (ensureArray doc.passage) dbDocument.id s3) = _
  rw [hg]
  show (match createDocument docId c.id
            (match findDocumentByDocumentId docId s1 with
             | some _ => deleteDocumentCascading docId s1
             | none => s1) with
        | .error e => Except.error e
        | .ok (dbDocument, s3) =>
          if (ensureArray doc.passage).isEmpty then Except.ok s3
          else processPassagesWithoutProgress (ensureArray doc.passage) dbDocument.id s3) = _
  rw [hcd]

lemma replaceCore (docId : String) (cid : Nat) (s2 : Store) (rows : List NormPassage)
    (hA : ∀ d ∈ s2.documents, ¬ d.documentId = docId)
    (hnodup2 : (s2.documents.map (fun d => d.documentId)).Nodup)
    (hdocb : ∀ d ∈ s2.documents, d.id < s2.nextId)
    (hpassb : ∀ p ∈ s2.passages, p.documentId < s2.nextId)
    (hrows : ∀ r ∈ rows, r.documentId = s2.nextId) :
    WF { nextId := s2.nextId + 1, collections := s2.collections,
         documents := s2.documents
           ++ [({ id := s2.nextId, documentId := docId, collectionId := cid } : DocumentRow)],
         passages := s2.passages ++ rows }
    ∧ (s2.documents
        ++ [({ id := s2.nextId, documentId := docId, collectionId := cid } : DocumentRow)]).filter
          (fun d => d.documentId = docId)
        = [({ id := s2.nextId, documentId := docId, collectionId := cid } : DocumentRow)]
    ∧ (s2.passages ++ rows).filter (fun p => p.documentId = s2.nextId) = rows := by
  refine ⟨⟨?_, ?_, ?_⟩, ?_, ?_⟩
  · show ((s2.documents
      ++ [({ id := s2.nextId, documentId := docId, collectionId := cid } : DocumentRow)]).map
        (fun d => d.documentId)).Nodup
    rw [List.map_append]
    refine List.Nodup.append hnodup2 (List.nodup_singleton _) ?_
    intro x hx1 hx2
    obtain ⟨d, hd, hdx⟩ := List.mem_map.mp hx1
    have hx : x = docId := by simpa using hx2
    exact hA d hd (by rw [hx] at hdx; exact hdx)
  · intro d hd
    rcases List.mem_append.mp hd with hd | hd
    · exact Nat.lt_succ_of_lt (hdocb d hd)
    · rw [List.mem_singleton.mp hd]
      exact Nat.lt_succ_self _
  · intro p hp
    rcases List.mem_append.mp hp with hp | hp
    · exact Nat.lt_succ_of_lt (hpassb p hp)
    · rw [hrows p hp]
      exact Nat.lt_succ_self _
  · rw [List.filter_append]
    have h1 : s2.documents.filter (fun d => d.documentId = docId) = [] := by
      rw [List.filter_eq_nil_iff]
      intro a ha
      simpa using hA a ha
    rw [h1]
    simp
  · rw [List.filter_append]
    have h1 : s2.passages.filter (fun p => p.documentId = s2.nextId) = [] := by
      rw [List.filter_eq_nil_iff]
      intro p hp
      have := hpassb p hp
      simp
      omega
    rw [h1]
    have h2 : rows.filter (fun p => p.documentId = s2.nextId) = rows := by
      rw [List.filter_eq_self]
      intro r hr
      simpa using hrows r hr
    rw [h2]
    rfl

lemma processPassages_ok_iff (ps : List PassageData) (rid : Nat) (st : Store) (s' : Store) :
    processPassagesWithoutProgress ps rid st = .ok s' ↔
      ∃ rows, mapExcept (fun p => normalizePassage p rid) ps = .ok rows
        ∧ s' = { st with passages := st.passages ++ rows } := by
  unfold processPassagesWithoutProgress
  cases hm : mapExcept (fun p => normalizePassage p rid) ps with
  | error e =>
      constructor
      · intro h; cases h
      · rintro ⟨rows, h2, hs⟩; cases h2
  | ok rows =>
      constructor
      · intro h
        injection h with h
        exact ⟨rows, rfl, h.symm⟩
      · rintro ⟨rows2, h2, hs⟩
        injection h2 with h2
        rw [hs, h2]

/-- C1.  Replace policy: provided the upsert succeeds, a re-ingested
document ends up as exactly one Document row per its natural key — the
old row and, by cascade, all of its passages (with their nested infon
and annotation rows) are gone — and the passages attached to the
surviving row are exactly the latest ingestion's normalized passages.
Documents with other natural keys survive untouched and the store stays
well-formed. -/
theorem C1_replace_upsert (doc : DocumentData) (cd : CollectionInput) (s s' : Store)
    (docId : String)
    (hwf : WF s) (hid : doc.id = some docId)
    (hok : processDocumentOnly doc cd s = .ok s') :
    WF s'
    ∧ (∃ row : DocumentRow,
        s'.documents.filter (fun d => d.documentId = docId) = [row]
          ∧ row.documentId = docId
          ∧ ∃ rows : List NormPassage,
              mapExcept (fun p => normalizePassage p row.id) (ensureArray doc.passage) = .ok rows
                ∧ s'.passages.filter (fun p => p.documentId = row.id) = rows)
    ∧ (∀ d ∈ s.documents, ¬ d.documentId = docId → d ∈ s'.documents)
    ∧ (∀ dOld ∈ s.documents, dOld.documentId = docId →
        ∀ p ∈ s'.passages, ¬ p.documentId = dOld.id) := by
  obtain ⟨hnodup, hdocbound, hpassbound⟩ := hwf
  obtain ⟨c, s1, hg, hdocs1, hpass1, hnext1⟩ := getOrCreateCollection_isOk cd s
  have hnodup1 : (s1.documents.map (fun d => d.documentId)).Nodup := by
    rw [hdocs1]; exact hnodup
  obtain ⟨hA, hnext2, hsub2, hpsub2, hkeep2⟩ := deleteBranch_basic docId s1 _ rfl
  obtain ⟨hnodup2, hcasc2⟩ := deleteBranch_cascade docId s1 _ hnodup1 rfl
  have hcd := createDocument_ok_eq docId c.id _ hA
  rw [processDocumentOnly_eq2 doc docId cd s c s1 _ _ hid hg hcd] at hok
  have hdocb2 : ∀ d ∈ (match findDocumentByDocumentId docId s1 with
      | some _ => deleteDocumentCascading docId s1
      | none => s1).documents,
      d.id < (match findDocumentByDocumentId docId s1 with
      | some _ => deleteDocumentCascading docId s1
      | none => s1).nextId := by
    intro d hd
    have h1 := hsub2 d hd
    rw [hdocs1] at h1
    have h2 := hdocbound d h1
    rw [hnext2]
    omega
  have hpassb2 : ∀ p ∈ (match findDocumentByDocumentId docId s1 with
      | some _ => deleteDocumentCascading docId s1
      | none => s1).passages,
      p.documentId < (match findDocumentByDocumentId docId s1 with
      | some _ => deleteDocumentCascading docId s1
      | none => s1).nextId := by
    intro p hp
    have h1 := hpsub2 p hp
    rw [hpass1] at h1
    have h2 := hpassbound p h1
    rw [hnext2]
    omega
  by_cases hemp : (ensureArray doc.passage).isEmpty = true
  · rw [if_pos hemp] at hok
    injection hok with hok
    have hcore := replaceCore docId c.id _ [] hA hnodup2 hdocb2 hpassb2
      (by intro r hr; cases hr)
    rw [List.append_nil] at hcore
    obtain ⟨hwfF, hfilterDoc, hfilterPass⟩ := hcore
    rw [← hok]
    refine ⟨hwfF, ⟨_, hfilterDoc, rfl, [], ?_, hfilterPass⟩, ?_, ?_⟩
    · rw [List.isEmpty_iff.mp hemp]
      rfl
    · intro d hd hne
      have hd1 : d ∈ s1.documents := by rw [hdocs1]; exact hd
      exact List.mem_append_left _ (hkeep2 d hd1 hne)
    · intro dOld hdm hkey p hp
      have hd1 : dOld ∈ s1.documents := by rw [hdocs1]; exact hdm
      exact hcasc2 dOld hd1 hkey p hp
  · rw [if_neg hemp] at hok
    obtain ⟨rows, hm, hs'⟩ := (processPassages_ok_iff _ _ _ _).mp hok
    have hrowsfk : ∀ r ∈ rows, r.documentId
        = (match findDocumentByDocumentId docId s1 with
           | some _ => deleteDocumentCascading docId s1
           | none => s1).nextId := by
      intro r hr
      obtain ⟨p, hp, hpr⟩ := mapExcept_mem _ _ _ hm r hr
      exact normalizePassage_documentId p _ r hpr
    have hcore := replaceCore docId c.id _ rows hA hnodup2 hdocb2 hpassb2 hrowsfk
    obtain ⟨hwfF, hfilterDoc, hfilterPass⟩ := hcore
    rw [hs']
    refine ⟨hwfF, ⟨_, hfilterDoc, rfl, rows, hm, hfilterPass⟩, ?_, ?_⟩
    · intro d hd hne
      have hd1 : d ∈ s1.documents := by rw [hdocs1]; exact hd
      exact List.mem_append_left _ (hkeep2 d hd1 hne)
    · intro dOld hdm hkey p hp
      have hd1 : dOld ∈ s1.documents := by rw [hdocs1]; exact hdm
      rcases List.mem_append.mp hp with hp | hp
      · exact hcasc2 dOld hd1 hkey p hp
      · have hfk := hrowsfk p hp
        have hidlt : dOld.id < (match findDocumentByDocumentId docId s1 with
            | some _ => deleteDocumentCascading docId s1
            | none => s1).nextId := by
          have h2 := hdocbound dOld hdm
          rw [hnext2]
          omega
        rw [hfk]
        omega

/-- C1 witness: replacing document `1` (one old passage) with a fresh
version leaves one row carrying exactly the new passage. -/
theorem C1_replace_upsert_witness :
    (WF exStoreExisting ∧ exDocNew.id = some "1"
      ∧ processDocumentOnly exDocNew exCollectionInput exStoreExisting = .ok exStoreReplaced)
    ∧ (WF exStoreReplaced
      ∧ (∃ row : DocumentRow,
          exStoreReplaced.documents.filter (fun d => d.documentId = "1") = [row]
            ∧ row.documentId = "1"
            ∧ ∃ rows : List NormPassage,
                mapExcept (fun p => normalizePassage p row.id) (ensureArray exDocNew.passage)
                    = .ok rows
                  ∧ exStoreReplaced.passages.filter (fun p => p.documentId = row.id) = rows)
      ∧ (∀ d ∈ exStoreExisting.documents, ¬ d.documentId = "1" → d ∈ exStoreReplaced.documents)
      ∧ (∀ dOld ∈ exStoreExisting.documents, dOld.documentId = "1" →
          ∀ p ∈ exStoreReplaced.passages, ¬ p.documentId = dOld.id)) :=
  ⟨⟨by decide, rfl, by decide⟩,
   C1_replace_upsert exDocNew exCollectionInput exStoreExisting exStoreReplaced "1"
     (by decide) rfl (by decide)⟩

lemma countKey_find_isSome (key : String) (s : Store)
    (h : (findCollectionByKey key s).isSome = true) : 1 ≤ countKey key s := by
  unfold findCollectionByKey at h
  obtain ⟨c, hc⟩ := Option.isSome_iff_exists.mp h
  have hmem := List.mem_of_find?_eq_some hc
  have hkey : c.key = key := by
    have := List.find?_some hc
    simpa using this
  unfold countKey
  have hcf : c ∈ s.collections.filter (fun c => c.key = key) :=
    List.mem_filter.mpr ⟨hmem, by simp [hkey]⟩
  have := List.length_pos.mpr (List.ne_nil_of_mem hcf)
  omega

lemma createCollection_ok_counts (cd : CollectionInput) (s : Store) (c : CollectionRow)
    (s' : Store) (h : createCollection cd s = .ok (c, s')) :
    countKey cd.key s = 0 ∧ countKey cd.key s' = 1 := by
  unfold createCollection at h
  cases hany : s.collections.any (fun c => c.key = cd.key) with
  | true => rw [hany] at h; cases h
  | false =>
      rw [hany] at h
      simp only [Bool.false_eq_true, if_false] at h
      injection h with h
      injection h with h1 h2
      have hzero : countKey cd.key s = 0 := by
        unfold countKey
        rw [List.length_eq_zero]
        rw [List.filter_eq_nil_iff]
        intro a ha
        have := List.any_eq_false.mp hany a ha
        simpa using this
      refine ⟨hzero, ?_⟩
      rw [← h2]
      show ((s.collections
          ++ [({ id := s.nextId, source := cd.source, date := cd.date, key := cd.key }
            : CollectionRow)]).filter (fun c => c.key = cd.key)).length = 1
      rw [List.filter_append]
      unfold countKey at hzero
      rw [List.length_eq_zero] at hzero
      rw [hzero]
      simp
  
lemma createCollection_error_counts (cd : CollectionInput) (s : Store) (e : JsError)
    (h : createCollection cd s = .error e) : 1 ≤ countKey cd.key s := by
  unfold createCollection at h
  cases hany : s.collections.any (fun c => c.key = cd.key) with
  | false =>
      rw [hany] at h
      simp only [Bool.false_eq_true, if_false] at h
      cases h
  | true =>
      obtain ⟨a, ha, hkey⟩ := List.any_eq_true.mp hany
      unfold countKey
      have hcf : a ∈ s.collections.filter (fun c => c.key = cd.key) :=
        List.mem_filter.mpr ⟨ha, hkey⟩
      have := List.length_pos.mpr (List.ne_nil_of_mem hcf)
      omega

lemma raceStep_inv (cd : CollectionInput) (st : RaceState) (i : Nat)
    (hinv : RaceInv cd.key st) :
    RaceInv cd.key (raceStep cd st i)
      ∧ countKey cd.key st.store ≤ countKey cd.key (raceStep cd st i).store := by
  unfold raceStep
  cases hg : st.workers.get? i with
  | none => exact ⟨hinv, Nat.le_refl _⟩
  | some w =>
      cases w with
      | toFind =>
          refine ⟨⟨hinv.1, ?_⟩, Nat.le_refl _⟩
          intro w' hw' hcase
          rcases List.mem_or_eq_of_mem_set hw' with hw' | hw'
          · exact hinv.2 w' hw' hcase
          · subst hw'
            rcases hcase with hcase | hcase | hcase
            · have hfound : (findCollectionByKey cd.key st.store).isSome = true := by
                injection hcase
              exact countKey_find_isSome _ _ hfound
            · cases hcase
            · cases hcase
      | toCreate found =>
          cases found with
          | true =>
              refine ⟨⟨hinv.1, ?_⟩, Nat.le_refl _⟩
              intro w' hw' hcase
              rcases List.mem_or_eq_of_mem_set hw' with hw' | hw'
              · exact hinv.2 w' hw' hcase
              · exact hinv.2 _ (List.get?_mem hg) (Or.inl rfl)
          | false =>
              cases hcc : createCollection cd st.store with
              | ok pair =>
                  obtain ⟨c2, s2⟩ := pair
                  obtain ⟨hzero, hone⟩ := createCollection_ok_counts cd st.store c2 s2 hcc
                  refine ⟨⟨by rw [hone], ?_⟩, by rw [hone, hzero]; omega⟩
                  intro w' hw' hcase
                  rw [hone]
              | error e =>
                  have hge := createCollection_error_counts cd st.store e hcc
                  refine ⟨⟨hinv.1, ?_⟩, Nat.le_refl _⟩
                  intro w' hw' hcase
                  exact hge
      | done => exact ⟨hinv, Nat.le_refl _⟩
      | failed => exact ⟨hinv, Nat.le_refl _⟩

lemma raceRun_inv (cd : CollectionInput) (st : RaceState) (sched : List Nat)
    (hinv : RaceInv cd.key st) :
    RaceInv cd.key (raceRun cd st sched)
      ∧ countKey cd.key st.store ≤ countKey cd.key (raceRun cd st sched).store := by
  induction sched generalizing st with
  | nil => exact ⟨hinv, Nat.le_refl _⟩
  | cons i rest ih =>
      obtain ⟨hinv1, hmono1⟩ := raceStep_inv cd st i hinv
      obtain ⟨hinv2, hmono2⟩ := ih (raceStep cd st i) hinv1
      exact ⟨hinv2, Nat.le_trans hmono1 hmono2⟩

/-- C9.  Any interleaving of any number of workers concurrently running
the find-then-create collection block for the same key leaves at most
one Collection row with that key; if a row existed already it is reused
(the count stays one), and as soon as any worker has completed —
normally or by a unique-violation abort — exactly one row with the key
exists.  The `create` here is modelled from the spec: `Collection.key`
is unique in the schema, so a concurrent duplicate insert fails instead
of writing a second row. -/
theorem C9_collection_key_unique (cd : CollectionInput) (n : Nat) (s0 : Store)
    (sched : List Nat) (h0 : countKey cd.key s0 ≤ 1) :
    countKey cd.key (raceRun cd ⟨List.replicate n .toFind, s0⟩ sched).store ≤ 1
    ∧ (1 ≤ countKey cd.key s0 →
        countKey cd.key (raceRun cd ⟨List.replicate n .toFind, s0⟩ sched).store = 1)
    ∧ (∀ i w, (raceRun cd ⟨List.replicate n .toFind, s0⟩ sched).workers.get? i = some w →
        (w = .done ∨ w = .failed) →
        countKey cd.key (raceRun cd ⟨List.replicate n .toFind, s0⟩ sched).store = 1) := by
  have hinv0 : RaceInv cd.key ⟨List.replicate n .toFind, s0⟩ := by
    refine ⟨h0, ?_⟩
    intro w hw hcase
    have hrep := List.eq_of_mem_replicate hw
    subst hrep
    rcases hcase with h | h | h <;> cases h
  obtain ⟨⟨hle, himpl⟩, hmono⟩ := raceRun_inv cd _ sched hinv0
  have hmono' : countKey cd.key s0
      ≤ countKey cd.key (raceRun cd ⟨List.replicate n .toFind, s0⟩ sched).store := hmono
  refine ⟨hle, ?_, ?_⟩
  · intro h1
    omega
  · intro i w hget hcase
    have hmem : w ∈ (raceRun cd ⟨List.replicate n .toFind, s0⟩ sched).workers :=
      List.get?_mem hget
    have h1 := himpl w hmem
      (by rcases hcase with h | h
          · exact Or.inr (Or.inl h)
          · exact Or.inr (Or.inr h))
    omega

/-- C9 witness: two workers racing find-then-create on the same key of
the empty store, fully interleaved (both find before either creates),
leave exactly one Collection row; the loser aborts with a unique
violation. -/
theorem C9_collection_key_unique_witness :
    countKey "10.BioC.XML"
      (raceRun exCollectionInput ⟨List.replicate 2 .toFind, emptyStore⟩ [0, 1, 0, 1]).store = 1 :=
  (C9_collection_key_unique exCollectionInput 2 emptyStore [0, 1, 0, 1] (by decide)).2.2
    0 .done (by decide) (Or.inl rfl)
